import Mathlib

/-!
Verification of the CTM saturation tool (src/main.c).

The development shallowly embeds the numeric core of the program:

* `coeffs_to_ctm` (src/main.c:66-79): translation of real coefficients into
  the DRM signed-magnitude S31.32 fixed-point format.  C `double` arithmetic
  is modelled exactly over `ℚ`; the C cast `(int64_t)` of a non-negative
  `double` truncates toward zero, i.e. it is the floor.  The stored 64-bit
  bit pattern is modelled as a natural number below `2^64`.
* `set_ctm` (src/main.c:194-235): the padding loop
  `padded_ctm[i] = ((uint32_t*)ctm.matrix)[i]` splits each 64-bit entry into
  its two 32-bit halves in native (little-endian) order: word `2i` is the
  low half, word `2i+1` the high half.  This is `pack` below.
* `find_output_by_name` (src/main.c:90-109): first-match lookup over the
  enumerated output list, sentinel `0` (`None`) when no name matches.
* `set_output_blob` (src/main.c:133-173): the property transmitter.  The
  X service is modelled as an oracle (`XService`); issued protocol requests
  are recorded in a trace (`XCall`).  `XRRChangeOutputProperty` queues the
  change and `XSync` flushes it and processes the server's replies and
  errors; main.c installs no X error handler, so if the service reports a
  protocol error for the queued change, Xlib's default error handler
  terminates the process during `XSync` and the function never returns.
  This is modelled by the `XOutcome.exited` outcome.
* `parse_user_ctm` (src/main.c:249-290): the saturation-matrix generator.
  The collaborator `strtod` is abstracted by passing its parse result (a
  rational; `strtod` yields `0` on unparseable input, which the source
  cannot distinguish from a literal zero).
-/

namespace Xsatmgr

/-- Fixed-point encoding of one coefficient, from `coeffs_to_ctm`
(src/main.c:70-78).  For `c < 0` the code stores
`(int64_t)(-c * (1L << 32))` and then ORs in bit 63; otherwise it stores
`(int64_t)(c * (1L << 32))`.  The result is the 64-bit pattern read as an
unsigned natural number. -/
def encodeCoeff (c : ℚ) : ℕ :=
  if c < 0 then
    (⌊-c * 2 ^ 32⌋).toNat ||| 2 ^ 63
  else
    (⌊c * 2 ^ 32⌋).toNat

/-- Encode all nine coefficients (`coeffs_to_ctm`, src/main.c:66-79). -/
def coeffs_to_ctm (coeffs : List ℚ) : List ℕ :=
  coeffs.map encodeCoeff

/-- Reference decode described by the spec: if bit 63 is set, negate the
magnitude held in the low 63 bits, otherwise take the value directly; then
divide by `2^32`. -/
def decodeCoeff (v : ℕ) : ℚ :=
  if v.testBit 63 then
    -(((v % 2 ^ 63 : ℕ) : ℚ) / 2 ^ 32)
  else
    ((v : ℕ) : ℚ) / 2 ^ 32

/-- The padding loop of `set_ctm` (src/main.c:225-227):
`padded_ctm[i] = ((uint32_t*)ctm.matrix)[i]` for `0 ≤ i < 18`.  On the
native little-endian layout, entry `i` of the 64-bit matrix contributes
word `2i` (its low 32 bits) and word `2i+1` (its high 32 bits). -/
def pack : List ℕ → List ℕ
  | [] => []
  | v :: rest => v % 2 ^ 32 :: (v / 2 ^ 32) % 2 ^ 32 :: pack rest

/-- Inverse reassembly: consecutive pairs of 32-bit words are recombined
into 64-bit values in the same order they were split. -/
def unpack : List ℕ → List ℕ
  | lo :: hi :: rest => (lo + 2 ^ 32 * hi) :: unpack rest
  | _ => []

/-- Resolver input: the enumerated outputs as (handle, name) pairs, as
produced by `res->outputs[i]` and `XRRGetOutputInfo` (src/main.c:97-99). -/
def find_output_by_name : List (ℕ × String) → String → ℕ
  | [], _ => 0
  | (handle, oname) :: rest, name =>
    if oname = name then handle else find_output_by_name rest name

/-- User CTM option as seen by `parse_user_ctm` (src/main.c:249-290):
either absent (`NULL`), the literal string `"default"`, or any other
string, abstracted by the value `strtod` parses from it (`strtod` returns
`0` when the string is unparseable). -/
inductive CtmOpt where
  | missing
  | defaultStr
  | other (value : ℚ)

/-- The identity coefficients used for the `"default"` option
(src/main.c:256-260). -/
def identity_coeffs : List ℚ := [1, 0, 0, 0, 1, 0, 0, 0, 1]

/-- `parse_user_ctm` (src/main.c:249-290): `none` models a `0` return
(no CTM change requested), `some coeffs` models a `1` return with the
coefficient array filled in.  A parsed value of exactly `0` is rejected
(src/main.c:266-270); otherwise the saturation matrix with
`s = (1 - value) / 3` is produced (src/main.c:273-278). -/
def parse_user_ctm : CtmOpt → Option (List ℚ)
  | CtmOpt.missing => none
  | CtmOpt.defaultStr => some identity_coeffs
  | CtmOpt.other value =>
    if value = 0 then
      none
    else
      some [(1 - value) / 3 + value, (1 - value) / 3, (1 - value) / 3,
            (1 - value) / 3, (1 - value) / 3 + value, (1 - value) / 3,
            (1 - value) / 3, (1 - value) / 3, (1 - value) / 3 + value]

/-- X constant `Success` (X.h). -/
def Success : ℕ := 0

/-- X constant `BadAtom` (X.h). -/
def BadAtom : ℕ := 5

/-- X constant `BadName` (X.h). -/
def BadName : ℕ := 15

/-- X constant `XA_INTEGER` (Xatom.h). -/
def XA_INTEGER : ℕ := 19

/-- Property name constant `PROP_CTM` (src/main.c:41). -/
def PROP_CTM : String := "CTM"

/-- The display service as seen by `set_output_blob`:
`internAtom` models `XInternAtom(dpy, name, 1)` (`0` when the name is not
registered); `queryOutputProperty` models `XRRQueryOutputProperty`
(`none` models a `NULL` reply, i.e. the output does not advertise the
property); `changeError` models the protocol error code, if any, that the
server reports for the queued `XRRChangeOutputProperty` request. -/
structure XService where
  internAtom : String → ℕ
  queryOutputProperty : ℕ → ℕ → Option Unit
  changeError : ℕ → ℕ → List ℕ → Option ℕ

/-- A protocol request issued by `set_output_blob`, recorded in order. -/
inductive XCall where
  | changeOutputProperty (output : ℕ) (prop_atom : ℕ) (typ : ℕ) (format : ℕ)
      (data : List ℕ) (nelements : ℕ)
  | xsync
deriving DecidableEq

/-- How a call to `set_output_blob` ends: it returns a status code, or the
process is terminated by Xlib's default error handler while `XSync`
processes a protocol error (main.c installs no error handler). -/
inductive XOutcome where
  | returned (status : ℕ)
  | exited (err : ℕ)
deriving DecidableEq

/-- `set_output_blob` (src/main.c:133-173).  It resolves the property name
to an atom (`BadAtom` when unknown), checks that the output advertises the
property (`BadName` when not), then issues `XRRChangeOutputProperty` with
`nelements = blob_bytes / (format >> 3)` and calls `XSync`.  If the server
reports an error for the change while `XSync` drains the queue, the default
Xlib error handler terminates the process; otherwise the function returns
`Success`. -/
def set_output_blob (svc : XService) (output : ℕ) (prop_name : String)
    (blob_data : List ℕ) (blob_bytes : ℕ) (format : ℕ) :
    XOutcome × List XCall :=
  let prop_atom := svc.internAtom prop_name
  if prop_atom = 0 then
    (XOutcome.returned BadAtom, [])
  else
    match svc.queryOutputProperty output prop_atom with
    | none => (XOutcome.returned BadName, [])
    | some _ =>
      let call := XCall.changeOutputProperty output prop_atom XA_INTEGER
        format blob_data (blob_bytes / (format >>> 3))
      match svc.changeError output prop_atom blob_data with
      | some e => (XOutcome.exited e, [call, XCall.xsync])
      | none => (XOutcome.returned Success, [call, XCall.xsync])

/-- `set_ctm` (src/main.c:194-235): encode the coefficients, split the nine
64-bit entries into eighteen 32-bit words, and transmit them on the `CTM`
property with `blob_size = sizeof(struct _drm_color_ctm) = 72` bytes and
32-bit format. -/
def set_ctm (svc : XService) (output : ℕ) (coeffs : List ℚ) :
    XOutcome × List XCall :=
  let ctm := coeffs_to_ctm coeffs
  let padded_ctm := pack ctm
  set_output_blob svc output PROP_CTM padded_ctm 72 32

/-! ### Helper lemmas -/

/-- ORing a power of two into a number below it is plain addition. -/
theorem lor_two_pow (k m : ℕ) (h : m < 2 ^ k) : m ||| 2 ^ k = m + 2 ^ k := by
  apply Nat.eq_of_testBit_eq
  intro i
  rw [Nat.testBit_lor]
  rcases lt_trichotomy i k with hi | rfl | hi
  · rw [Nat.testBit_two_pow_of_ne (Nat.ne_of_gt hi), Bool.or_false]
    rw [Nat.testBit_to_div_mod, Nat.testBit_to_div_mod]
    have hk2 : 2 ^ k = 2 ^ (k - i - 1) * 2 * 2 ^ i := by
      rw [Nat.mul_assoc, ← pow_succ', ← pow_add]
      congr 1
      omega
    rw [hk2, Nat.add_mul_div_right _ _ (Nat.two_pow_pos i), Nat.add_mul_mod_self_right]
  · have h1 : (m + 2 ^ i) / 2 ^ i = 1 := by
      rw [Nat.add_div_right _ (Nat.two_pow_pos i), Nat.div_eq_of_lt h]
    rw [Nat.testBit_lt_two_pow h, Bool.false_or, Nat.testBit_two_pow_self,
      Nat.testBit_to_div_mod, h1]
    simp
  · have h2 : m + 2 ^ k < 2 ^ i := by
      have h4 : 2 ^ (k + 1) ≤ 2 ^ i := Nat.pow_le_pow_right (by norm_num) hi
      have hkk : 2 ^ k + 2 ^ k = 2 ^ (k + 1) := by ring
      omega
    have h3 : m < 2 ^ i := by omega
    rw [Nat.testBit_lt_two_pow h2, Nat.testBit_lt_two_pow h3,
      Nat.testBit_two_pow_of_ne (Nat.ne_of_lt hi)]
    simp

/-- Bit 63 of `m + 2 ^ 63` is set when `m < 2 ^ 63`. -/
theorem testBit63_add {m : ℕ} (h : m < 2 ^ 63) : (m + 2 ^ 63).testBit 63 = true := by
  rw [← lor_two_pow 63 m h, Nat.testBit_lor, Nat.testBit_lt_two_pow h,
    Nat.testBit_two_pow_self]
  simp

/-- The truncated magnitude of a rational below `2 ^ 63` fits in 63 bits. -/
theorem mag_toNat_lt {x : ℚ} (h : x < 2 ^ 63) : (⌊x⌋).toNat < 2 ^ 63 := by
  have h1 : (⌊x⌋ : ℚ) ≤ x := Int.floor_le x
  have h2 : ⌊x⌋ < (2 ^ 63 : ℤ) := by exact_mod_cast lt_of_le_of_lt h1 h
  omega

/-- Casting the truncation of a non-negative rational back to `ℚ` gives the
floor. -/
theorem toNat_cast_q {x : ℚ} (h : 0 ≤ x) : ((⌊x⌋.toNat : ℕ) : ℚ) = (⌊x⌋ : ℚ) := by
  have h1 : 0 ≤ ⌊x⌋ := Int.floor_nonneg.mpr h
  exact_mod_cast congrArg (fun z : ℤ => (z : ℚ)) (Int.toNat_of_nonneg h1)

/-! ### Claims about the fixed-point encoder -/

/-- Claim C1: for a coefficient `c < 0` the encoder stores a 64-bit value
whose top bit (bit 63) is 1 and whose low 63 bits are `abs(c) * 2^32`
truncated to an integer; for `c ≥ 0` the truncated magnitude is stored
directly with sign bit 0.  The encoding is signed-magnitude: the encodings
of `-x` and `x` differ exactly in the top bit. -/
theorem encodeCoeff_signed_magnitude (c : ℚ) (h : |c| * 2 ^ 32 < 2 ^ 63) :
    (c < 0 → (encodeCoeff c).testBit 63 = true ∧
      encodeCoeff c % 2 ^ 63 = (⌊|c| * 2 ^ 32⌋).toNat) ∧
    (0 ≤ c → (encodeCoeff c).testBit 63 = false ∧
      encodeCoeff c = (⌊|c| * 2 ^ 32⌋).toNat) ∧
    (c ≠ 0 → encodeCoeff (-|c|) = encodeCoeff |c| + 2 ^ 63 ∧
      encodeCoeff |c| < 2 ^ 63) := by
  refine ⟨?_, ?_, ?_⟩
  · intro hc
    have habs : |c| = -c := abs_of_neg hc
    have hm : (⌊-c * 2 ^ 32⌋).toNat < 2 ^ 63 := by
      apply mag_toNat_lt
      rw [← habs]
      exact h
    have he : encodeCoeff c = (⌊-c * 2 ^ 32⌋).toNat + 2 ^ 63 := by
      rw [encodeCoeff, if_pos hc, lor_two_pow 63 _ hm]
    constructor
    · rw [he]
      exact testBit63_add hm
    · rw [he, Nat.add_mod_right, Nat.mod_eq_of_lt hm, habs]
  · intro hc
    have habs : |c| = c := abs_of_nonneg hc
    have hm : (⌊c * 2 ^ 32⌋).toNat < 2 ^ 63 := by
      apply mag_toNat_lt
      rw [← habs]
      exact h
    have he : encodeCoeff c = (⌊c * 2 ^ 32⌋).toNat := by
      rw [encodeCoeff, if_neg (not_lt.mpr hc)]
    exact ⟨by rw [he]; exact Nat.testBit_lt_two_pow hm, by rw [he, habs]⟩
  · intro hc
    have hpos : 0 < |c| := abs_pos.mpr hc
    have hm : (⌊|c| * 2 ^ 32⌋).toNat < 2 ^ 63 := mag_toNat_lt h
    constructor
    · rw [encodeCoeff, if_pos (neg_neg_iff_pos.mpr hpos), neg_neg,
        encodeCoeff, if_neg (not_lt.mpr (le_of_lt hpos)), lor_two_pow 63 _ hm]
    · rw [encodeCoeff, if_neg (not_lt.mpr (le_of_lt hpos))]
      exact hm

/-- Witness for C1, at the concrete coefficient `c = -1`. -/
theorem encodeCoeff_signed_magnitude_witness :
    |(-1 : ℚ)| * 2 ^ 32 < 2 ^ 63 ∧
    (((-1 : ℚ) < 0 → (encodeCoeff (-1)).testBit 63 = true ∧
      encodeCoeff (-1) % 2 ^ 63 = (⌊|(-1 : ℚ)| * 2 ^ 32⌋).toNat) ∧
    ((0 : ℚ) ≤ -1 → (encodeCoeff (-1)).testBit 63 = false ∧
      encodeCoeff (-1) = (⌊|(-1 : ℚ)| * 2 ^ 32⌋).toNat) ∧
    ((-1 : ℚ) ≠ 0 → encodeCoeff (-|(-1 : ℚ)|) = encodeCoeff |(-1 : ℚ)| + 2 ^ 63 ∧
      encodeCoeff |(-1 : ℚ)| < 2 ^ 63)) :=
  ⟨by norm_num, encodeCoeff_signed_magnitude (-1) (by norm_num)⟩

/-- Claim C2: whenever the magnitude fits the Q31.32 range, encoding and
then applying the reference decode recovers the coefficient to within
`2^-32` absolute error. -/
theorem encode_decode_roundtrip (c : ℚ) (h : |c| * 2 ^ 32 < 2 ^ 63) :
    |decodeCoeff (encodeCoeff c) - c| ≤ 1 / 2 ^ 32 := by
  have hp : (0 : ℚ) < 2 ^ 32 := by positivity
  rcases lt_or_le c 0 with hc | hc
  · have habs : -c * 2 ^ 32 < 2 ^ 63 := by rw [← abs_of_neg hc]; exact h
    have hm : (⌊-c * 2 ^ 32⌋).toNat < 2 ^ 63 := mag_toNat_lt habs
    have hx : (0 : ℚ) ≤ -c * 2 ^ 32 := mul_nonneg (by linarith) (by norm_num)
    have he : encodeCoeff c = (⌊-c * 2 ^ 32⌋).toNat + 2 ^ 63 := by
      rw [encodeCoeff, if_pos hc, lor_two_pow 63 _ hm]
    rw [he, decodeCoeff, if_pos (testBit63_add hm), Nat.add_mod_right,
      Nat.mod_eq_of_lt hm]
    have hq : ((⌊-c * 2 ^ 32⌋.toNat : ℕ) : ℚ) = (⌊-c * 2 ^ 32⌋ : ℚ) := toNat_cast_q hx
    rw [hq]
    have hle : (⌊-c * 2 ^ 32⌋ : ℚ) ≤ -c * 2 ^ 32 := Int.floor_le _
    have hgt : -c * 2 ^ 32 < (⌊-c * 2 ^ 32⌋ : ℚ) + 1 := Int.lt_floor_add_one _
    have key : -((⌊-c * 2 ^ 32⌋ : ℚ) / 2 ^ 32) - c =
        (-c * 2 ^ 32 - (⌊-c * 2 ^ 32⌋ : ℚ)) / 2 ^ 32 := by
      ring
    rw [key, abs_div, abs_of_pos hp]
    have hnum : |(-c * 2 ^ 32 - (⌊-c * 2 ^ 32⌋ : ℚ))| ≤ 1 := by
      rw [abs_le]
      constructor <;> linarith
    gcongr
  · have habs : c * 2 ^ 32 < 2 ^ 63 := by rw [← abs_of_nonneg hc]; exact h
    have hm : (⌊c * 2 ^ 32⌋).toNat < 2 ^ 63 := mag_toNat_lt habs
    have hx : (0 : ℚ) ≤ c * 2 ^ 32 := mul_nonneg hc (by norm_num)
    have he : encodeCoeff c = (⌊c * 2 ^ 32⌋).toNat := by
      rw [encodeCoeff, if_neg (not_lt.mpr hc)]
    rw [he, decodeCoeff, if_neg (by rw [Nat.testBit_lt_two_pow hm]; simp)]
    have hq : ((⌊c * 2 ^ 32⌋.toNat : ℕ) : ℚ) = (⌊c * 2 ^ 32⌋ : ℚ) := toNat_cast_q hx
    rw [hq]
    have hle : (⌊c * 2 ^ 32⌋ : ℚ) ≤ c * 2 ^ 32 := Int.floor_le _
    have hgt : c * 2 ^ 32 < (⌊c * 2 ^ 32⌋ : ℚ) + 1 := Int.lt_floor_add_one _
    have key : (⌊c * 2 ^ 32⌋ : ℚ) / 2 ^ 32 - c =
        (c * 2 ^ 32 - (⌊c * 2 ^ 32⌋ : ℚ)) / 2 ^ 32 * (-1) := by
      ring
    rw [key, abs_mul, abs_div, abs_of_pos hp]
    have hnum : |(c * 2 ^ 32 - (⌊c * 2 ^ 32⌋ : ℚ))| ≤ 1 := by
      rw [abs_le]
      constructor <;> linarith
    have hone : |(-1 : ℚ)| = 1 := by norm_num
    rw [hone, mul_one]
    gcongr

/-- Witness for C2, at the concrete coefficient `c = -1`. -/
theorem encode_decode_roundtrip_witness :
    |(-1 : ℚ)| * 2 ^ 32 < 2 ^ 63 ∧
    |decodeCoeff (encodeCoeff (-1)) - (-1)| ≤ 1 / 2 ^ 32 :=
  ⟨by norm_num, encode_decode_roundtrip (-1) (by norm_num)⟩

/-- Claim C4: the coefficient `0` — also when it arises as a negated zero —
is encoded as the all-zero 64-bit pattern, with the sign bit clear.  In the
source, `-0.0 < 0` is false under IEEE comparison, so the non-negative
branch runs; over `ℚ` the model agrees, since `-0 = 0` and `0 < 0` fails. -/
theorem encodeCoeff_zero_all_zero :
    encodeCoeff 0 = 0 ∧ encodeCoeff (-0) = 0 ∧
    (encodeCoeff (-0)).testBit 63 = false := by
  refine ⟨?_, ?_, ?_⟩ <;> norm_num [encodeCoeff]

/-! ### Claims about the blob packer -/

/-- Packing doubles the length: two 32-bit words per 64-bit entry. -/
theorem pack_length (fp : List ℕ) : (pack fp).length = 2 * fp.length := by
  induction fp with
  | nil => simp [pack]
  | cons v rest ih =>
    simp [pack, ih]
    omega

/-- Reassembling consecutive word pairs undoes the split, entrywise, for
64-bit entries. -/
theorem unpack_pack (fp : List ℕ) (hb : ∀ v ∈ fp, v < 2 ^ 64) :
    unpack (pack fp) = fp := by
  induction fp with
  | nil => simp [pack, unpack]
  | cons v rest ih =>
    have hv : v < 2 ^ 64 := hb v (List.mem_cons_self v rest)
    have hrest : ∀ w ∈ rest, w < 2 ^ 64 := fun w hw => hb w (List.mem_cons_of_mem v hw)
    simp only [pack, unpack]
    rw [ih hrest]
    congr 1
    omega

/-- Words `2i` and `2i+1` of the packed blob recombine to entry `i`. -/
theorem pack_getD (fp : List ℕ) (i : ℕ) (hi : i < fp.length)
    (hb : ∀ v ∈ fp, v < 2 ^ 64) :
    (pack fp).getD (2 * i) 0 + 2 ^ 32 * (pack fp).getD (2 * i + 1) 0 =
      fp.getD i 0 := by
  induction fp generalizing i with
  | nil => simp at hi
  | cons v rest ih =>
    cases i with
    | zero =>
      have hv : v < 2 ^ 64 := hb v (List.mem_cons_self v rest)
      simp only [pack, Nat.mul_zero, List.getD_cons_zero, Nat.zero_add,
        List.getD_cons_succ]
      omega
    | succ j =>
      have h2 : 2 * (j + 1) = 2 * j + 1 + 1 := by ring
      rw [h2]
      simp only [pack, List.getD_cons_succ]
      exact ih j (by simpa using hi) (fun w hw => hb w (List.mem_cons_of_mem v hw))

/-- Claim C3: for a 9-entry fixed-point matrix, `pack` produces exactly 18
32-bit words, words `2i` and `2i+1` are the two halves of entry `i`
(recombining them in split order gives the entry back), and `unpack` is the
exact inverse of `pack`. -/
theorem pack_inverse_and_length (fp : List ℕ) (hlen : fp.length = 9)
    (hb : ∀ v ∈ fp, v < 2 ^ 64) :
    (pack fp).length = 18 ∧
    (∀ i, i < 9 →
      (pack fp).getD (2 * i) 0 + 2 ^ 32 * (pack fp).getD (2 * i + 1) 0 =
        fp.getD i 0) ∧
    unpack (pack fp) = fp := by
  refine ⟨by rw [pack_length, hlen], ?_, unpack_pack fp hb⟩
  intro i hi
  exact pack_getD fp i (by omega) hb

/-- Witness for C3, on the all-zero nine-entry matrix. -/
theorem pack_inverse_and_length_witness :
    ([0, 0, 0, 0, 0, 0, 0, 0, 0] : List ℕ).length = 9 ∧
    (∀ v ∈ ([0, 0, 0, 0, 0, 0, 0, 0, 0] : List ℕ), v < 2 ^ 64) ∧
    ((pack [0, 0, 0, 0, 0, 0, 0, 0, 0]).length = 18 ∧
     (∀ i, i < 9 →
       (pack [0, 0, 0, 0, 0, 0, 0, 0, 0]).getD (2 * i) 0 +
         2 ^ 32 * (pack [0, 0, 0, 0, 0, 0, 0, 0, 0]).getD (2 * i + 1) 0 =
         ([0, 0, 0, 0, 0, 0, 0, 0, 0] : List ℕ).getD i 0) ∧
     unpack (pack [0, 0, 0, 0, 0, 0, 0, 0, 0]) = [0, 0, 0, 0, 0, 0, 0, 0, 0]) :=
  ⟨rfl, by decide, pack_inverse_and_length _ rfl (by decide)⟩

/-! ### Claims about the matrix generator -/

/-- Counterexample for C5 as stated: the claim quantifies over every finite
saturation value, but at `value = 0` the source rejects the request
(src/main.c:266-270) instead of returning the formula matrix
(all entries `(1 - 0)/3`, diagonal `(1 - 0)/3 + 0`). -/
theorem parse_user_ctm_zero_counterexample :
    ¬ (parse_user_ctm (CtmOpt.other 0) =
      some [(1 - 0) / 3 + 0, (1 - 0) / 3, (1 - 0) / 3,
            (1 - 0) / 3, (1 - 0) / 3 + 0, (1 - 0) / 3,
            (1 - 0) / 3, (1 - 0) / 3, (1 - 0) / 3 + 0]) := by
  simp [parse_user_ctm]

/-- Claim C5 (amended to nonzero values): for every nonzero saturation
value `v` the generator returns exactly the row-major matrix with
`s = (1 - v)/3` off the diagonal and `s + v` on it; `v = 1` yields exactly
the identity coefficients, and `v < 0` or `v > 1` are not clamped (the
formula is applied unchanged for every nonzero `v`). -/
theorem parse_user_ctm_scalar_formula (v : ℚ) (hv : v ≠ 0) :
    ∃ m, parse_user_ctm (CtmOpt.other v) = some m ∧ m.length = 9 ∧
      (∀ i j, i < 3 → j < 3 →
        m.getD (3 * i + j) 0 =
          if i = j then (1 - v) / 3 + v else (1 - v) / 3) ∧
      (v = 1 → m = identity_coeffs) := by
  refine ⟨[(1 - v) / 3 + v, (1 - v) / 3, (1 - v) / 3,
           (1 - v) / 3, (1 - v) / 3 + v, (1 - v) / 3,
           (1 - v) / 3, (1 - v) / 3, (1 - v) / 3 + v], ?_, by simp, ?_, ?_⟩
  · simp [parse_user_ctm, hv]
  · intro i j hi hj
    interval_cases i <;> interval_cases j <;> norm_num [List.getD]
  · intro hv1
    subst hv1
    norm_num [identity_coeffs]

/-- Witness for the amended C5, at the unclamped value `v = 2`. -/
theorem parse_user_ctm_scalar_formula_witness :
    (2 : ℚ) ≠ 0 ∧
    ∃ m, parse_user_ctm (CtmOpt.other 2) = some m ∧ m.length = 9 ∧
      (∀ i j, i < 3 → j < 3 →
        m.getD (3 * i + j) 0 =
          if i = j then (1 - 2 : ℚ) / 3 + 2 else (1 - 2 : ℚ) / 3) ∧
      ((2 : ℚ) = 1 → m = identity_coeffs) :=
  ⟨by norm_num, parse_user_ctm_scalar_formula 2 (by norm_num)⟩

/-- Claim C6: the source rejects a saturation value that parses to exactly
`0` — printing "not a valid Saturation value" and requesting no CTM change —
instead of accepting it as full desaturation (all matrix entries `1/3`).
This evaluates the code at the failing input. -/
theorem parse_user_ctm_rejects_zero :
    parse_user_ctm (CtmOpt.other 0) = none := by
  simp [parse_user_ctm]

/-! ### Claims about the output resolver -/

/-- No enumerated output matches: the resolver returns the sentinel `0`. -/
theorem find_output_none : ∀ (outs : List (ℕ × String)) (name : String),
    (∀ p ∈ outs, p.2 ≠ name) → find_output_by_name outs name = 0
  | [], _, _ => rfl
  | (handle, oname) :: rest, name, h => by
    have hne : oname ≠ name := h (handle, oname) (List.mem_cons_self _ _)
    rw [find_output_by_name, if_neg hne]
    exact find_output_none rest name fun q hq => h q (List.mem_cons_of_mem _ hq)

/-- The resolver returns the handle of the first exactly-matching output. -/
theorem find_output_first : ∀ (pre : List (ℕ × String)) (handle : ℕ)
    (post : List (ℕ × String)) (name : String),
    (∀ p ∈ pre, p.2 ≠ name) →
    find_output_by_name (pre ++ (handle, name) :: post) name = handle
  | [], handle, post, name, _ => by
    rw [List.nil_append, find_output_by_name, if_pos rfl]
  | (h1, n1) :: pre, handle, post, name, h => by
    have hne : n1 ≠ name := h (h1, n1) (List.mem_cons_self _ _)
    rw [List.cons_append, find_output_by_name, if_neg hne]
    exact find_output_first pre handle post name fun q hq =>
      h q (List.mem_cons_of_mem _ hq)

/-- Claim C9: for every requested name and enumerated output sequence, the
resolver returns the handle of the first output whose name is exactly
(case-sensitively) equal to the requested name, and returns the not-found
sentinel `0` when no enumerated output matches. -/
theorem find_output_by_name_spec (outs : List (ℕ × String)) (name : String) :
    ((∀ p ∈ outs, p.2 ≠ name) → find_output_by_name outs name = 0) ∧
    (∀ pre handle post, outs = pre ++ (handle, name) :: post →
      (∀ p ∈ pre, p.2 ≠ name) → find_output_by_name outs name = handle) := by
  refine ⟨find_output_none outs name, ?_⟩
  intro pre handle post heq hpre
  subst heq
  exact find_output_first pre handle post name hpre

/-- Witness for C9: the second of two outputs is the first exact match. -/
theorem find_output_by_name_spec_witness :
    find_output_by_name [(7, "DP-1"), (9, "HDMI-1")] "HDMI-1" = 9 :=
  (find_output_by_name_spec [(7, "DP-1"), (9, "HDMI-1")] "HDMI-1").2
    [(7, "DP-1")] 9 [] rfl (by simp)

/-! ### Claims about the property transmitter -/

/-- Claim C7: the CTM transmit operation returns `Success` only after the
packed blob has been submitted via `XRRChangeOutputProperty` as an
`XA_INTEGER` array of 32-bit elements (18 of them: `72 / (32 >> 3)`)
followed by the `XSync` flush, and only when the service reported no error
code for the change: had the service reported one, `XSync`'s event
processing would have run Xlib's default error handler and terminated the
process instead of returning. -/
theorem set_ctm_success_iff_flushed (svc : XService) (output : ℕ)
    (coeffs : List ℚ)
    (h : (set_ctm svc output coeffs).1 = XOutcome.returned Success) :
    svc.internAtom PROP_CTM ≠ 0 ∧
    (set_ctm svc output coeffs).2 =
      [XCall.changeOutputProperty output (svc.internAtom PROP_CTM) XA_INTEGER
        32 (pack (coeffs_to_ctm coeffs)) 18, XCall.xsync] ∧
    svc.changeError output (svc.internAtom PROP_CTM)
      (pack (coeffs_to_ctm coeffs)) = none := by
  by_cases ha : svc.internAtom PROP_CTM = 0
  · exfalso
    rw [set_ctm, set_output_blob] at h
    simp only [ha, if_pos] at h
    simp [Success, BadAtom] at h
  · rcases hq : svc.queryOutputProperty output (svc.internAtom PROP_CTM) with _ | u
    · exfalso
      rw [set_ctm, set_output_blob] at h
      simp only [ha, if_neg, hq] at h
      simp [Success, BadName] at h
    · rcases hce : svc.changeError output (svc.internAtom PROP_CTM)
        (pack (coeffs_to_ctm coeffs)) with _ | e
      · refine ⟨ha, ?_, rfl⟩
        rw [set_ctm, set_output_blob]
        simp only [ha, if_neg, hq, hce]
        norm_num
        decide
      · exfalso
        rw [set_ctm, set_output_blob] at h
        simp only [ha, if_neg, hq, hce] at h
        simp at h

/-- Witness for C7: a service that knows the property, advertises it on the
output and reports no error; the transmit succeeds after the recorded
change-and-sync sequence. -/
theorem set_ctm_success_iff_flushed_witness :
    ((set_ctm ⟨fun _ => 7, fun _ _ => some (), fun _ _ _ => none⟩ 3
        identity_coeffs).1 = XOutcome.returned Success) ∧
    ((XService.mk (fun _ => 7) (fun _ _ => some ()) (fun _ _ _ => none)).internAtom
        PROP_CTM ≠ 0 ∧
      (set_ctm ⟨fun _ => 7, fun _ _ => some (), fun _ _ _ => none⟩ 3
          identity_coeffs).2 =
        [XCall.changeOutputProperty 3
          ((XService.mk (fun _ => 7) (fun _ _ => some ()) (fun _ _ _ => none)).internAtom
            PROP_CTM) XA_INTEGER 32 (pack (coeffs_to_ctm identity_coeffs)) 18,
         XCall.xsync] ∧
      (XService.mk (fun _ => 7) (fun _ _ => some ()) (fun _ _ _ => none)).changeError 3
        ((XService.mk (fun _ => 7) (fun _ _ => some ()) (fun _ _ _ => none)).internAtom
          PROP_CTM) (pack (coeffs_to_ctm identity_coeffs)) = none) :=
  ⟨by rw [set_ctm, set_output_blob]; norm_num,
   set_ctm_success_iff_flushed _ 3 identity_coeffs
     (by rw [set_ctm, set_output_blob]; norm_num)⟩

/-- Claim C8: when the property-name lookup reports the name as not
registered (`XInternAtom` with `only_if_exists` returns `0`), the
transmitter returns `BadAtom` (the unknown-property-name error) with an
empty request trace: no property change is submitted to the service. -/
theorem set_output_blob_unknown_name (svc : XService) (output : ℕ)
    (prop_name : String) (blob_data : List ℕ) (blob_bytes format : ℕ)
    (h : svc.internAtom prop_name = 0) :
    set_output_blob svc output prop_name blob_data blob_bytes format =
      (XOutcome.returned BadAtom, []) := by
  rw [set_output_blob]
  simp [h]

/-- Witness for C8: a service with no registered atoms. -/
theorem set_output_blob_unknown_name_witness :
    set_output_blob ⟨fun _ => 0, fun _ _ => some (), fun _ _ _ => none⟩ 3
      PROP_CTM [] 72 32 = (XOutcome.returned BadAtom, []) :=
  set_output_blob_unknown_name _ 3 PROP_CTM [] 72 32 rfl

/-- Claim C10: when the property name resolves to an atom but the per-output
property query returns nothing (`XRRQueryOutputProperty` yields `NULL`),
the transmitter returns `BadName` before issuing any property write or
synchronize request — the trace is empty, so the service's state is
unchanged. -/
theorem set_output_blob_not_on_output (svc : XService) (output : ℕ)
    (prop_name : String) (blob_data : List ℕ) (blob_bytes format : ℕ)
    (h1 : svc.internAtom prop_name ≠ 0)
    (h2 : svc.queryOutputProperty output (svc.internAtom prop_name) = none) :
    set_output_blob svc output prop_name blob_data blob_bytes format =
      (XOutcome.returned BadName, []) := by
  rw [set_output_blob]
  simp [h1, h2]

/-- Witness for C10: a service with an atom for the name but no property on
the output. -/
theorem set_output_blob_not_on_output_witness :
    (XService.mk (fun _ => 7) (fun _ _ => none) (fun _ _ _ => none)).internAtom
        PROP_CTM ≠ 0 ∧
    (XService.mk (fun _ => 7) (fun _ _ => none) (fun _ _ _ => none)).queryOutputProperty
        3 ((XService.mk (fun _ => 7) (fun _ _ => none) (fun _ _ _ => none)).internAtom
          PROP_CTM) = none ∧
    set_output_blob ⟨fun _ => 7, fun _ _ => none, fun _ _ _ => none⟩ 3
      PROP_CTM [] 72 32 = (XOutcome.returned BadName, []) :=
  ⟨by norm_num, rfl,
   set_output_blob_not_on_output _ 3 PROP_CTM [] 72 32 (by norm_num) rfl⟩

end Xsatmgr
